import Mathlib

/-!
Verification of the inference core of `llama.cpp` (single-file C++ source).

The development shallowly embeds the parts of `src/llama.cpp` that the
claims are about:

* byte-stream primitives and the model-file magic detection
  (`llama_file_loader::read_magic`),
* the score-maximizing byte-pair tokenizer (`llama_tokenizer`),
* the sampling pipeline (`llama_sample_top_p_top_k`),
* the quantization eligibility test (`llama_model_quantize_internal`),
* the session state (`llama_context`) with `llama_eval_internal`,
  `llama_get_state_size`, `llama_copy_state_data`, `llama_set_state_data`,
  `llama_get_kv_cache_token_count` and `llama_token_to_str`.

Conventions used throughout:

* file bytes are `Nat` values `< 256`; multi-byte integers are read
  little-endian, as on the x86 targets the file format is defined for;
* C++ `float` values that the claims treat symbolically (logits, vocabulary
  scores) are modelled as `Rat`; every arithmetic step a claim mentions is
  exact in the range the claims exercise, and no claim here depends on
  rounding;
* calls into the external tensor library (graph compute, quantization
  kernels, `expf`) and into the standard library RNG are taken as
  parameters of the embedding;
* fallible code returns `Option`/dedicated result types.
-/

namespace LlamaSpec

/-! ### Little-endian byte primitives (llama_util.h `llama_file::read_u32` etc.) -/

/-- Assemble a little-endian natural from a byte list (first byte least
significant). -/
def natFromLE (bs : List Nat) : Nat :=
  bs.foldr (fun b acc => b + 256 * acc) 0

/-- Serialize a natural to 8 little-endian bytes (C++ `size_t`, 64-bit). -/
def u64le (n : Nat) : List Nat :=
  [n % 256, n / 2^8 % 256, n / 2^16 % 256, n / 2^24 % 256,
   n / 2^32 % 256, n / 2^40 % 256, n / 2^48 % 256, n / 2^56 % 256]

/-- Serialize a natural to 4 little-endian bytes (C++ `uint32_t`). -/
def u32le (n : Nat) : List Nat :=
  [n % 256, n / 2^8 % 256, n / 2^16 % 256, n / 2^24 % 256]

/-- Serialize an integer to 4 little-endian bytes in two's complement
(C++ `int`, 32-bit). -/
def i32le (n : Int) : List Nat :=
  u32le (n % (2^32 : Int)).toNat

/-- Decode 4 little-endian bytes as a two's-complement 32-bit integer. -/
def i32FromLE (bs : List Nat) : Int :=
  let u := natFromLE bs
  if u < 2^31 then (u : Int) else (u : Int) - 2^32

/-- Consume `n` bytes from a byte stream; `none` models an I/O error from a
truncated file (`llama_file::read_raw` past EOF). -/
def readBytes (n : Nat) (s : List Nat) : Option (List Nat × List Nat) :=
  if n ≤ s.length then some (s.take n, s.drop n) else none

/-- `llama_file::read_u32`: read 4 bytes, assemble little-endian. -/
def read_u32 : List Nat → Option (Nat × List Nat)
  | b0 :: b1 :: b2 :: b3 :: rest =>
      some (b0 + 256 * (b1 + 256 * (b2 + 256 * b3)), rest)
  | _ => none

/-! ### Model-file magic detection (`llama_file_loader::read_magic`)

The source compares the 32-bit value read from the file against the C++
multi-character literals `'ggml'` = `0x67676D6C`, `'ggmf'` = `0x67676D66`
and `'ggjt'` = `0x67676A74`.  The file is read little-endian, so the
on-disk byte order of an accepted magic is the reverse of the ASCII
spelling. -/

inductive llama_file_version where
  | gguf_ggml   -- LLAMA_FILE_VERSION_GGML
  | ggmf_v1     -- LLAMA_FILE_VERSION_GGMF_V1
  | ggjt_v1     -- LLAMA_FILE_VERSION_GGJT_V1
  deriving DecidableEq, Repr

/-- Result of `read_magic`: success with the remaining stream, the thrown
"unknown (magic, version) combination" error, or an I/O error on a
truncated file. -/
inductive MagicResult where
  | ok (v : llama_file_version) (rest : List Nat)
  | badMagic (magic version : Nat)
  | eof
  deriving DecidableEq, Repr

/-- `llama_file_loader::read_magic`, lines 410-428 of `llama.cpp`:
read a `u32` magic; `version = 0`; if the magic is not `'ggml'`, read a
second `u32` as version; then accept exactly the three known
(magic, version) combinations. -/
def read_magic (s : List Nat) : MagicResult :=
  match read_u32 s with
  | none => .eof
  | some (magic, s1) =>
    match (if magic ≠ 0x67676D6C then read_u32 s1 else some (0, s1)) with
    | none => .eof
    | some (version, s2) =>
      if magic = 0x67676D6C ∧ version = 0 then .ok .gguf_ggml s2
      else if magic = 0x67676D66 ∧ version = 1 then .ok .ggmf_v1 s2
      else if magic = 0x67676A74 ∧ version = 1 then .ok .ggjt_v1 s2
      else .badMagic magic version

/-! ### Vocabulary (`llama_vocab`) -/

/-- `llama_vocab`: an `unordered_map token → id` (modelled as an
association list with unique keys) and a score-carrying `id → token`
vector.  Token bytes are `Nat` values; ids are `Nat` (non-negative
`int32_t` values); scores are `Rat` (see the file header on floats). -/
structure llama_vocab where
  token_to_id : List (List Nat × Nat)
  id_to_token : List (List Nat × Rat)

/-- `vocab.token_to_id.find(text)`. -/
def vocab_find (v : llama_vocab) (key : List Nat) : Option Nat :=
  v.token_to_id.lookup key

/-! ### Tokenizer (`llama_tokenizer`, `utf8_len`, `llama_sp_symbol`,
`llama_sp_bigram`) -/

/-- `utf8_len`: byte length of the UTF-8 character led by `src`, looked up
from the top 4 bits of the byte. -/
def utf8_len (src : Nat) : Nat :=
  [1, 1, 1, 1, 1, 1, 1, 1, 1, 1, 1, 1, 2, 2, 3, 4].getD (src / 16) 1

/-- `llama_sp_symbol`: one element of the doubly-linked symbol chain.  The
C++ stores a pointer into the text; we store the byte offset `start`. -/
structure llama_sp_symbol where
  prev : Int
  next : Int
  start : Nat
  n : Nat
  deriving DecidableEq, Repr

instance : Inhabited llama_sp_symbol := ⟨⟨0, 0, 0, 0⟩⟩

/-- `llama_sp_bigram`: a work-queue entry. -/
structure llama_sp_bigram where
  left : Nat
  right : Nat
  score : Rat
  size : Nat
  deriving DecidableEq, Repr

instance : Inhabited llama_sp_bigram := ⟨⟨0, 0, 0, 0⟩⟩

/-- The byte range covered by a symbol (C++ `(symbol.text, symbol.n)`). -/
def symbol_bytes (text : List Nat) (s : llama_sp_symbol) : List Nat :=
  (text.drop s.start).take s.n

/-- `llama_sp_bigram::comparator`: `l` sorts below `r` when its score is
lower, or on equal scores when its left index is larger.  The
`priority_queue` therefore pops highest score first, ties broken towards
the smaller left index. -/
def bigram_lt (l r : llama_sp_bigram) : Bool :=
  (l.score < r.score) || (l.score == r.score && l.left > r.left)

/-- One pass over the work queue keeping the element that no later element
beats under `bigram_lt`; equal-priority entries keep the earlier one (the
C++ `priority_queue` leaves that order unspecified, and no code path nor
claim depends on it: equal score and equal left index). -/
def popMaxGo (best : llama_sp_bigram) (passed : List llama_sp_bigram) :
    List llama_sp_bigram → llama_sp_bigram × List llama_sp_bigram
  | [] => (best, passed.reverse)
  | x :: xs =>
    if bigram_lt best x then popMaxGo x (best :: passed) xs
    else popMaxGo best (x :: passed) xs

/-- `work_queue_.top(); work_queue_.pop()`: extract the maximal-priority
entry and the remaining queue. -/
def popMax : List llama_sp_bigram → Option (llama_sp_bigram × List llama_sp_bigram)
  | [] => none
  | x :: xs => some (popMaxGo x [] xs)

/-- `llama_tokenizer::try_add_bigram(left, right)`: admit the pair only if
both indices exist and the concatenated bytes are a vocabulary key whose id
is in range; its priority data is the token's score. -/
def try_add_bigram (vocab : llama_vocab) (text : List Nat)
    (symbols : List llama_sp_symbol) (queue : List llama_sp_bigram)
    (left right : Int) : List llama_sp_bigram :=
  if left = -1 ∨ right = -1 then queue
  else
    let ls := symbols.getD left.toNat default
    let rs := symbols.getD right.toNat default
    let cat := (text.drop ls.start).take (ls.n + rs.n)
    match vocab_find vocab cat with
    | none => queue
    | some id =>
      if id < vocab.id_to_token.length then
        queue ++ [{ left := left.toNat, right := right.toNat,
                    score := (vocab.id_to_token.getD id default).2,
                    size := ls.n + rs.n }]
      else queue

/-- Number of live (unmerged) symbols; each merge consumes exactly one. -/
def activeCount (symbols : List llama_sp_symbol) : Nat :=
  symbols.countP (fun s => s.n != 0)

/-- The three symbol-chain mutations of a successful merge: grow the left
symbol over the right one and relink (`left_sym.n += right_sym.n`,
`left_sym.next = right_sym.next`), consume the right symbol
(`right_sym.n = 0`), and fix the back pointer of the next live symbol
(`symbols_[right_sym.next].prev = bigram.left`, executed only when
`right_sym.next >= 0`). -/
def merge_symbols (symbols : List llama_sp_symbol)
    (bigram : llama_sp_bigram) : List llama_sp_symbol :=
  let ls := symbols.getD bigram.left default
  let rs := symbols.getD bigram.right default
  let symbols1 := symbols.set bigram.left
    { ls with n := ls.n + rs.n, next := rs.next }
  let symbols2 := symbols1.set bigram.right { rs with n := 0 }
  if 0 ≤ rs.next then
    symbols2.set rs.next.toNat
      { symbols2.getD rs.next.toNat default with prev := (bigram.left : Int) }
  else symbols2

/-- One-step state of the merge loop, split out so the loop body below
matches the C++ statement for statement. -/
def merge_step (vocab : llama_vocab) (text : List Nat)
    (bigram : llama_sp_bigram) (rest : List llama_sp_bigram)
    (symbols : List llama_sp_symbol) :
    List llama_sp_bigram × List llama_sp_symbol :=
  let ls := symbols.getD bigram.left default
  let rs := symbols.getD bigram.right default
  -- if one of the symbols already got merged, or the pair is stale, skip it
  if ls.n = 0 ∨ rs.n = 0 ∨ ls.n + rs.n ≠ bigram.size then (rest, symbols)
  else
    -- merge the right symbol into the left one, unlink the right one
    let symbols3 := merge_symbols symbols bigram
    -- find more substitutions
    let lsNew := symbols3.getD bigram.left default
    let q1 := try_add_bigram vocab text symbols3 rest lsNew.prev (bigram.left : Int)
    let q2 := try_add_bigram vocab text symbols3 q1 (bigram.left : Int) lsNew.next
    (q2, symbols3)

/-- The merge loop of `llama_tokenizer::tokenize`, structurally recursive
on a fuel argument.  Each iteration pops one queue entry; a stale entry
only shrinks the queue, and a merge deactivates one symbol while pushing at
most two new entries, so `queue.length + 3 * activeCount symbols` strictly
decreases every iteration and is a sound fuel bound
(`merge_loop_fuel_adequate` below). -/
def merge_loop_fuel (vocab : llama_vocab) (text : List Nat) :
    Nat → List llama_sp_bigram → List llama_sp_symbol → List llama_sp_symbol
  | 0, _, symbols => symbols
  | fuel + 1, queue, symbols =>
    match popMax queue with
    | none => symbols
    | some (bigram, rest) =>
      let (q2, s3) := merge_step vocab text bigram rest symbols
      merge_loop_fuel vocab text fuel q2 s3

/-- `while (!work_queue_.empty()) { ... }` with the sound fuel bound. -/
def merge_loop (vocab : llama_vocab) (text : List Nat)
    (queue : List llama_sp_bigram) (symbols : List llama_sp_symbol) :
    List llama_sp_symbol :=
  merge_loop_fuel vocab text (queue.length + 3 * activeCount symbols) queue symbols

/-- Splitting the text into one symbol per UTF-8 character, structurally
recursive on a fuel argument.  Each step consumes `char_len ≥ 1` bytes, so
`text.length` steps always reach the end of the text and
`seed_symbols_fuel_adequate` below shows the bound is sound. -/
def seed_symbols_fuel (text : List Nat) :
    Nat → Nat → Nat → List llama_sp_symbol
  | 0, _, _ => []
  | fuel + 1, index, offs =>
    if offs < text.length then
      let char_len := min (text.length - offs) (utf8_len (text.getD offs 0))
      { prev := (index : Int) - 1,
        next := if offs + char_len = text.length then -1 else (index : Int) + 1,
        start := offs, n := char_len } ::
        seed_symbols_fuel text fuel (index + 1) (offs + char_len)
    else []

/-- The symbol-seeding loop of `llama_tokenizer::tokenize`. -/
def seed_symbols (text : List Nat) : List llama_sp_symbol :=
  seed_symbols_fuel text text.length 0 0

/-- Seeding the work queue with all adjacent pairs
(`for (size_t i = 1; i < symbols_.size(); ++i) try_add_bigram(i-1, i)`). -/
def seed_queue (vocab : llama_vocab) (text : List Nat)
    (symbols : List llama_sp_symbol) : List llama_sp_bigram :=
  (List.range symbols.length).foldl
    (fun q i => if i = 0 then q
                else try_add_bigram vocab text symbols q ((i : Int) - 1) (i : Int))
    []

/-- Emission of one surviving symbol: its vocabulary id when the bytes are
a key, otherwise one id per raw byte with id = byte + 3. -/
def emit_one (vocab : llama_vocab) (bs : List Nat) : List Nat :=
  match vocab_find vocab bs with
  | none => bs.map (· + 3)
  | some id => [id]

/-- The final walk `for (int i = 0; i != -1; i = symbols_[i].next)`,
fuelled by the number of symbols (the `next` pointers strictly increase
along the chain, so the walk visits each index at most once). -/
def emit_walk (vocab : llama_vocab) (text : List Nat)
    (symbols : List llama_sp_symbol) : Nat → Int → List Nat
  | 0, _ => []
  | fuel + 1, i =>
    if i = -1 then []
    else
      let s := symbols.getD i.toNat default
      emit_one vocab (symbol_bytes text s) ++ emit_walk vocab text symbols fuel s.next

/-- `llama_tokenizer::tokenize`, lines 1332-1398: seed symbols from UTF-8
characters, seed the queue with adjacent pairs, run the merge loop, then
emit the surviving chain. -/
def llama_tokenizer_tokenize (vocab : llama_vocab) (text : List Nat) : List Nat :=
  let symbols := seed_symbols text
  let queue := seed_queue vocab text symbols
  let finalSymbols := merge_loop vocab text queue symbols
  emit_walk vocab text finalSymbols finalSymbols.length 0

/-- Static `llama_tokenize` (lines 1432-1446): empty text yields no
tokens; otherwise the BOS id 1 is prepended when requested. -/
def llama_tokenize_static (vocab : llama_vocab) (text : List Nat)
    (bos : Bool) : List Nat :=
  if text.length = 0 then []
  else (if bos then [1] else []) ++ llama_tokenizer_tokenize vocab text

/-- API `llama_tokenize` (lines 1821-1839): returns the token count and
the ids written to the caller's array, or the negated count (and no
writes) when the result does not fit in `n_max_tokens` slots. -/
def llama_tokenize_api (vocab : llama_vocab) (text : List Nat)
    (n_max_tokens : Int) (add_bos : Bool) : Int × List Nat :=
  let res := llama_tokenize_static vocab text add_bos
  if n_max_tokens < (res.length : Int) then (-(res.length : Int), [])
  else ((res.length : Int), res)

/-- The vocabulary of the tokenizer merge-order scenario:
`a` id 10 score 0, `b` id 11 score 0, `ab` id 12 score 1, `abc` id 13
score 2, `c` id 14 score 0 (ids 0-9 are unused placeholder entries so the
id-indexed token vector lines up). -/
def abcVocab : llama_vocab :=
  { token_to_id := [([97], 10), ([98], 11), ([97, 98], 12), ([97, 98, 99], 13),
                    ([99], 14)],
    id_to_token :=
      [([], 0), ([], 0), ([], 0), ([], 0), ([], 0), ([], 0), ([], 0), ([], 0),
       ([], 0), ([], 0),
       ([97], 0), ([98], 0), ([97, 98], 1), ([97, 98, 99], 2), ([99], 0)] }

/-- A vocabulary with no entries at all. -/
def emptyVocab : llama_vocab := { token_to_id := [], id_to_token := [] }

/-! ### Sampler (`llama_sample_top_p_top_k`, lines 1452-1555)

Logits and scores are `Rat` (see the file header); `expf` and the
`std::discrete_distribution` draw from the `mt19937` RNG are passed in as
parameters `expf` and `draw`.  The `std::partial_sort` of the top-k step is
modelled as a stable descending sort; the C++ comparator
`a.first > b.first` leaves the order of equal keys unspecified and no claim
depends on it. -/

/-- The `temp <= 0` branch: scan for the highest logit, keeping the first
maximiser (`if (plogits[i] > max_logit)` is strict). -/
def argmax_go : List Rat → Nat → Nat → Rat → Nat
  | [], _, max_id, _ => max_id
  | x :: rest, i, max_id, max_logit =>
    if max_logit < x then argmax_go rest (i + 1) i x
    else argmax_go rest (i + 1) max_id max_logit

/-- `max_logit = plogits[0]; max_id = 0; for (i = 1; ...)`. -/
def sample_argmax (logits : List Rat) : Nat :=
  argmax_go (logits.drop 1) 1 0 (logits.getD 0 0)

/-- The penalty/temperature loop (lines 1495-1511): each id `i` is paired
with `plogits[i]*scale*repeat_penalty` (negative logit in the window),
`plogits[i]*scale/repeat_penalty` (non-negative logit in the window) or
`plogits[i]*scale`, where `scale = 1/temp`. -/
def scaled_logits (logits : List Rat) (last_n_tokens : List Nat)
    (temp repeat_penalty : Rat) : List (Rat × Nat) :=
  let scale := 1 / temp
  (List.range logits.length).map (fun i =>
    if last_n_tokens.contains i then
      if logits.getD i 0 < 0 then
        (logits.getD i 0 * scale * repeat_penalty, i)
      else
        (logits.getD i 0 * scale / repeat_penalty, i)
    else (logits.getD i 0 * scale, i))

/-- The `top_p < 1` cutoff (lines 1532-1542): the number of entries kept,
cutting just after the cumulative probability first reaches `top_p`. -/
def top_p_cut_go (top_p : Rat) : Rat → Nat → List Rat → Nat
  | _, i, [] => i
  | cumsum, i, p :: rest =>
    if top_p ≤ cumsum + p then i + 1
    else top_p_cut_go top_p (cumsum + p) (i + 1) rest

def top_p_cut (probs : List Rat) (top_p : Rat) : Nat :=
  top_p_cut_go top_p 0 0 probs

/-- `llama_sample_top_p_top_k` (static, lines 1464-1555). -/
def llama_sample_top_p_top_k (logits : List Rat) (last_n_tokens : List Nat)
    (top_k : Int) (top_p temp repeat_penalty : Rat)
    (expf : Rat → Rat) (draw : List Rat → Nat) : Nat :=
  if temp ≤ 0 then sample_argmax logits
  else
    let logits_id := scaled_logits logits last_n_tokens temp repeat_penalty
    let k := if 0 < top_k then min top_k.toNat logits.length else logits.length
    let kept := (logits_id.mergeSort (fun a b => decide (b.1 ≤ a.1))).take k
    let maxl := (kept.getD 0 default).1
    let probs0 := kept.map (fun kv => expf (kv.1 - maxl))
    let sum := probs0.foldl (· + ·) 0
    let probs := probs0.map (· / sum)
    let cut := if top_p < 1 then top_p_cut probs top_p else probs.length
    (( kept.take cut).getD (draw (probs.take cut)) default).2

/-! ### Quantizer eligibility (`llama_model_quantize_internal`, lines
1578-1656)

The C++ test is `tensor.name.rfind("weight") == tensor.name.size() - 6`
with `size_t` arithmetic: `rfind` yields `npos = 2^64 - 1` when the
pattern does not occur, and `size() - 6` wraps for names shorter than 6
bytes. -/

/-- `std::string::npos` for a 64-bit `size_t`. -/
def npos : Nat := 2^64 - 1

/-- The bytes of `"weight"`. -/
def weight_name : List Nat := [0x77, 0x65, 0x69, 0x67, 0x68, 0x74]

/-- Downward scan behind `std::string::rfind`: the largest start position
`i < j` with `i + pat.length ≤ hay.length` whose slice equals `pat`. -/
def str_rfind_go (hay pat : List Nat) : Nat → Option Nat
  | 0 => none
  | i + 1 =>
    if i + pat.length ≤ hay.length ∧ (hay.drop i).take pat.length = pat
    then some i
    else str_rfind_go hay pat i

/-- `hay.rfind(pat)`: position of the last occurrence. -/
def str_rfind (hay pat : List Nat) : Option Nat :=
  str_rfind_go hay pat (hay.length + 1)

/-- `tensor.name.rfind("weight") == tensor.name.size() - 6`, with the
`size_t` wrap-around of the subtraction made explicit. -/
def quantize_name_flag (name : List Nat) : Bool :=
  (str_rfind name weight_name).getD npos = (name.length + 2^64 - 6) % 2^64

/-- `quantize &= (tensor.ne.size() == 2)`. -/
def tensor_quantize_flag (name : List Nat) (n_dims : Nat) : Bool :=
  quantize_name_flag name && (n_dims == 2)

inductive ggml_type where
  | F32 | F16 | Q4_0 | Q4_1
  deriving DecidableEq, Repr

/-- The per-tensor data the quantization loop looks at. -/
structure quant_tensor where
  name : List Nat
  ne : List Nat
  type : ggml_type
  data : List Nat

/-- The per-tensor branch of `llama_model_quantize_internal`: an
ineligible tensor keeps its dtype and bytes; an eligible one is converted
by the quantization kernel (external, a parameter). -/
def quantize_tensor_out (quantized_type : ggml_type)
    (kernel : quant_tensor → List Nat) (t : quant_tensor) :
    ggml_type × List Nat :=
  if ¬ tensor_quantize_flag t.name t.ne.length then (t.type, t.data)
  else (quantized_type, kernel t)

/-! ### Session state (`llama_context`) and the state blob

The fields below are the ones the claims observe.  The wall-clock timing
counters (`t_*_us`) are omitted: they read an external clock.  The RNG is
kept as its serialized text bytes (`rng_ss << ctx->rng` produces such a
stream); the float byte encoding is a parameter `f32le`/`b2f` pair. -/

structure llama_context where
  rng_bytes : List Nat
  logits : List Rat
  logits_capacity : Nat
  embedding : List Rat
  kv_buf : List Nat
  kv_n : Int
  n_eval : Nat
  n_p_eval : Nat
  has_evaluated_once : Bool

/-- What one graph execution produces: the extracted logits, the extracted
last hidden state, and the KV-cache bytes after the graph's `ggml_cpy`
nodes wrote the new K/V rows.  The numeric content is the tensor library's
(out of scope); the session-state bookkeeping around it is what the claims
constrain. -/
structure graph_output where
  logits_rows : List Rat
  embedding_out : List Rat
  kv_buf_out : List Nat

/-- `llama_eval_internal` (lines 1023-1293) as a state transformer: build
and run the graph (`gc`), store the extracted logits (and the embedding
when the session requested one), and bump the `n_eval`/`n_p_eval`
counters.  Note that `kv_self.n` is *not* written anywhere in the
function. -/
def llama_eval_internal (gc : List Int → Int → graph_output)
    (ctx : llama_context) (tokens : List Int) (n_past n_threads : Int) :
    llama_context :=
  let N := tokens.length
  let out := gc tokens n_past
  { ctx with
    logits := out.logits_rows,
    logits_capacity := max ctx.logits_capacity out.logits_rows.length,
    embedding := if ctx.embedding.length ≠ 0 then out.embedding_out
                 else ctx.embedding,
    kv_buf := out.kv_buf_out,
    n_eval := if N = 1 then ctx.n_eval + 1 else ctx.n_eval,
    n_p_eval := if 1 < N then ctx.n_p_eval + N else ctx.n_p_eval }

/-- API `llama_eval` (lines 1803-1819): run the internal eval, record the
first-eval flag, return 0 on success. -/
def llama_eval (gc : List Int → Int → graph_output) (ctx : llama_context)
    (tokens : List Int) (n_past n_threads : Int) : Int × llama_context :=
  let ctx2 := llama_eval_internal gc ctx tokens n_past n_threads
  (0, { ctx2 with has_evaluated_once := true })

/-- `llama_get_kv_cache_size` (line 1779): the raw cache buffer size. -/
def llama_get_kv_cache_size (ctx : llama_context) : Nat :=
  ctx.kv_buf.length

/-- `llama_get_kv_cache_token_count` (lines 1783-1785). -/
def llama_get_kv_cache_token_count (ctx : llama_context) : Int :=
  ctx.kv_n

/-- A freshly initialized session: empty logits, empty cache bytes shown
here as `[]` for concreteness, counter 0 (the C++ leaves `kv_self.n`
uninitialized; 0 is what a zeroed allocation observes). -/
def freshCtx : llama_context :=
  { rng_bytes := [], logits := [], logits_capacity := 0, embedding := [],
    kv_buf := [], kv_n := 0, n_eval := 0, n_p_eval := 0,
    has_evaluated_once := false }

/-- `llama_get_state_size` (lines 1955-1982), term for term. -/
def llama_get_state_size (ctx : llama_context) : Nat :=
  let s_rng_size := 8
  let s_rng := 64 * 1024
  let s_logits_capacity := 8
  let s_logits_size := 8
  let s_logits := ctx.logits_capacity * 4
  let s_embedding_size := 8
  let s_embedding := ctx.embedding.length * 4
  let s_kv_size := 8
  let s_kv_ntok := 4
  let s_kv := llama_get_kv_cache_size ctx
  s_rng_size + s_rng + s_logits_capacity + s_logits_size + s_logits +
    s_embedding_size + s_embedding + s_kv_size + s_kv_ntok + s_kv

/-- `llama_copy_state_data` (lines 1985-2022): the bytes written to
`dest`, in write order.  The code serializes the RNG into a zeroed 64 KiB
buffer and always writes the whole buffer; after the meaningful
`logits_size` floats the output pointer skips to `logits_capacity` floats,
so the gap bytes are whatever `dest` held — written as zeros here, only
their count is observable through the claims. -/
def llama_copy_state_data (f32le : Rat → List Nat) (ctx : llama_context) :
    List Nat :=
  u64le ctx.rng_bytes.length ++
  ((ctx.rng_bytes.take (64 * 1024) ++
    List.replicate (64 * 1024 - ctx.rng_bytes.length) 0) ++
  (u64le ctx.logits_capacity ++
  (u64le ctx.logits.length ++
  (((ctx.logits.map f32le).flatten ++
    List.replicate ((ctx.logits_capacity - ctx.logits.length) * 4) 0) ++
  (u64le ctx.embedding.length ++
  ((ctx.embedding.map f32le).flatten ++
  (u64le ctx.kv_buf.length ++
  (i32le ctx.kv_n ++
  ctx.kv_buf))))))))

/-- Split a byte list into 4-byte floats (the shape `memcpy` into a
`float` array gives it). -/
def chunks4 : List Nat → List (List Nat)
  | b0 :: b1 :: b2 :: b3 :: rest => [b0, b1, b2, b3] :: chunks4 rest
  | _ => []

/-- `llama_set_state_data` (lines 2025-2075): the reads in read order,
the `LLAMA_ASSERT`s as failure (`none`), and the returned byte count
`in - src`.  The RNG-restore assert (`rng_ss.fail() == false`) is modelled
as requiring the recorded length to fit the 64 KiB buffer. -/
def llama_set_state_data (b2f : List Nat → Rat) (ctx : llama_context)
    (src : List Nat) : Option (llama_context × Nat) := do
  let (rng_size_bytes, s1) ← readBytes 8 src
  let rng_size := natFromLE rng_size_bytes
  let (rng_buf, s2) ← readBytes (64 * 1024) s1
  if rng_size ≤ 64 * 1024 then
    let (cap_bytes, s3) ← readBytes 8 s2
    let logits_capacity := natFromLE cap_bytes
    let (size_bytes, s4) ← readBytes 8 s3
    let logits_size := natFromLE size_bytes
    if ctx.logits_capacity = logits_capacity then
      let (logits_bytes, s5) ← readBytes (logits_capacity * 4) s4
      let new_logits := if logits_size ≠ 0 then
          (chunks4 (logits_bytes.take (logits_size * 4))).map b2f
        else ctx.logits
      let (emb_size_bytes, s6) ← readBytes 8 s5
      let embedding_size := natFromLE emb_size_bytes
      if ctx.embedding.length = embedding_size then
        let (emb_bytes, s7) ←
          if embedding_size ≠ 0 then readBytes (embedding_size * 4) s6
          else pure ([], s6)
        let new_embedding := if embedding_size ≠ 0 then
            (chunks4 emb_bytes).map b2f
          else ctx.embedding
        let (kv_size_bytes, s8) ← readBytes 8 s7
        let kv_size := natFromLE kv_size_bytes
        let (kv_ntok_bytes, s9) ← readBytes 4 s8
        let kv_ntok := i32FromLE kv_ntok_bytes
        if kv_size ≠ 0 then
          if llama_get_kv_cache_size ctx = kv_size then
            let (kv_bytes, s10) ← readBytes kv_size s9
            pure ({ ctx with
                      rng_bytes := rng_buf.take rng_size,
                      logits := new_logits,
                      embedding := new_embedding,
                      kv_buf := kv_bytes,
                      kv_n := kv_ntok },
                  src.length - s10.length)
          else none
        else
          pure ({ ctx with
                    rng_bytes := rng_buf.take rng_size,
                    logits := new_logits,
                    embedding := new_embedding,
                    kv_n := kv_ntok },
                src.length - s9.length)
      else none
    else none
  else none

/-- API `llama_n_vocab` (lines 1841-1843). -/
def llama_n_vocab (vocab : llama_vocab) : Int :=
  vocab.id_to_token.length

/-- `llama_token_to_str` (lines 1861-1867): ids at or above `n_vocab`
yield the null pointer (`none`); in-range ids yield the stored token
bytes.  A negative id indexes out of bounds in the C++ (undefined
behaviour, constrained by no claim); it is mapped to `none` here. -/
def llama_token_to_str (vocab : llama_vocab) (token : Int) :
    Option (List Nat) :=
  if llama_n_vocab vocab ≤ token then none
  else if token < 0 then none
  else some (vocab.id_to_token.getD token.toNat ([], 0)).1

/-! ### Theorems -/

theorem u64le_length (n : Nat) : (u64le n).length = 8 := rfl

theorem natFromLE_u64le (n : Nat) : natFromLE (u64le n) = n % 2^64 := by
  simp only [u64le, natFromLE, List.foldr]
  omega

theorem u32le_length (n : Nat) : (u32le n).length = 4 := rfl

theorem natFromLE_u32le (n : Nat) : natFromLE (u32le n) = n % 2^32 := by
  simp only [u32le, natFromLE, List.foldr]
  omega

theorem readBytes_append (a b : List Nat) :
    readBytes a.length (a ++ b) = some (a, b) := by
  simp [readBytes]

theorem read_u32_eq_some (s : List Nat) (w : Nat) (r : List Nat)
    (h : read_u32 s = some (w, r)) :
    ∃ b0 b1 b2 b3, s = b0 :: b1 :: b2 :: b3 :: r ∧
      w = b0 + 256 * (b1 + 256 * (b2 + 256 * b3)) := by
  match s with
  | [] | [_] | [_, _] | [_, _, _] => simp [read_u32] at h
  | b0 :: b1 :: b2 :: b3 :: rest =>
    simp only [read_u32, Option.some.injEq, Prod.mk.injEq] at h
    exact ⟨b0, b1, b2, b3, by rw [h.2], h.1.symm⟩

/-- C2, counterexample.  A file whose first bytes are `67 67 6D 6C`
(ASCII "ggml" in file order) is *not* accepted: the little-endian read
yields `0x6C6D6767`, which differs from the literal `'ggml' = 0x67676D6C`
the code compares against, so the loader throws the bad-magic error.  The
same holds for the GGMF and GGJT byte sequences of the claim. -/
theorem C2_magic_counterexample :
    read_magic [0x67, 0x67, 0x6D, 0x6C, 0, 0, 0, 0] = .badMagic 0x6C6D6767 0 ∧
    read_magic [0x67, 0x67, 0x6D, 0x66, 1, 0, 0, 0] = .badMagic 0x666D6767 1 ∧
    read_magic [0x67, 0x67, 0x6A, 0x74, 1, 0, 0, 0] = .badMagic 0x746A6767 1 := by
  decide

/-- C2, amended.  Because each 32-bit header field is read little-endian, a
file is accepted as legacy version 0 iff it begins `6C 6D 67 67` ("lmgg",
the literal `'ggml'` in on-disk byte order), as GGMF v1 iff it begins
`66 6D 67 67 01 00 00 00`, and as GGJT v1 iff it begins
`74 6A 67 67 01 00 00 00`; every other (magic, version) combination is
rejected with the bad-magic failure (or an I/O failure on a truncated
header). -/
theorem C2_magic_amended (rest s : List Nat) (hs : ∀ b ∈ s, b < 256) :
    read_magic ([0x6C, 0x6D, 0x67, 0x67] ++ rest) = .ok .gguf_ggml rest ∧
    read_magic ([0x66, 0x6D, 0x67, 0x67, 1, 0, 0, 0] ++ rest) = .ok .ggmf_v1 rest ∧
    read_magic ([0x74, 0x6A, 0x67, 0x67, 1, 0, 0, 0] ++ rest) = .ok .ggjt_v1 rest ∧
    ∀ v r, read_magic s = .ok v r →
      (v = .gguf_ggml ∧ s = [0x6C, 0x6D, 0x67, 0x67] ++ r) ∨
      (v = .ggmf_v1 ∧ s = [0x66, 0x6D, 0x67, 0x67, 1, 0, 0, 0] ++ r) ∨
      (v = .ggjt_v1 ∧ s = [0x74, 0x6A, 0x67, 0x67, 1, 0, 0, 0] ++ r) := by
  refine ⟨by norm_num [read_magic, read_u32], by norm_num [read_magic, read_u32],
          by norm_num [read_magic, read_u32], ?_⟩
  intro v r h
  cases hu : read_u32 s with
  | none =>
    simp only [read_magic, hu] at h
    exact absurd h (by simp)
  | some p =>
    obtain ⟨w, s1⟩ := p
    obtain ⟨b0, b1, b2, b3, hsx, hw⟩ := read_u32_eq_some s w s1 hu
    subst hsx
    have hb0 : b0 < 256 := hs _ (by simp)
    have hb1 : b1 < 256 := hs _ (by simp)
    have hb2 : b2 < 256 := hs _ (by simp)
    have hb3 : b3 < 256 := hs _ (by simp)
    simp only [read_magic, hu] at h
    by_cases hmagic : w = 0x67676D6C
    · have hb : b0 = 0x6C ∧ b1 = 0x6D ∧ b2 = 0x67 ∧ b3 = 0x67 := by omega
      rw [if_neg (by simp [hmagic])] at h
      simp only [] at h
      rw [if_pos ⟨hmagic, trivial⟩] at h
      injection h with h1 h2
      exact Or.inl ⟨h1.symm, by simp [hb.1, hb.2.1, hb.2.2.1, hb.2.2.2, h2]⟩
    · rw [if_pos hmagic] at h
      cases hu2 : read_u32 s1 with
      | none =>
        simp only [hu2] at h
        exact absurd h (by simp)
      | some p2 =>
        obtain ⟨w2, s2⟩ := p2
        obtain ⟨c0, c1, c2, c3, hsy, hw2⟩ := read_u32_eq_some s1 w2 s2 hu2
        subst hsy
        have hc0 : c0 < 256 := hs _ (by simp)
        have hc1 : c1 < 256 := hs _ (by simp)
        have hc2 : c2 < 256 := hs _ (by simp)
        have hc3 : c3 < 256 := hs _ (by simp)
        simp only [hu2] at h
        rw [if_neg (fun hc => hmagic hc.1)] at h
        by_cases hmf : w = 0x67676D66 ∧ w2 = 1
        · have hb : b0 = 0x66 ∧ b1 = 0x6D ∧ b2 = 0x67 ∧ b3 = 0x67 ∧
              c0 = 1 ∧ c1 = 0 ∧ c2 = 0 ∧ c3 = 0 := by
            obtain ⟨hmf1, hmf2⟩ := hmf
            omega
          rw [if_pos hmf] at h
          injection h with h1 h2
          refine Or.inr (Or.inl ⟨h1.symm, ?_⟩)
          simp [hb.1, hb.2.1, hb.2.2.1, hb.2.2.2.1, hb.2.2.2.2.1,
                hb.2.2.2.2.2.1, hb.2.2.2.2.2.2.1, hb.2.2.2.2.2.2.2, h2]
        · rw [if_neg hmf] at h
          by_cases hjt : w = 0x67676A74 ∧ w2 = 1
          · have hb : b0 = 0x74 ∧ b1 = 0x6A ∧ b2 = 0x67 ∧ b3 = 0x67 ∧
                c0 = 1 ∧ c1 = 0 ∧ c2 = 0 ∧ c3 = 0 := by
              obtain ⟨hjt1, hjt2⟩ := hjt
              omega
            rw [if_pos hjt] at h
            injection h with h1 h2
            refine Or.inr (Or.inr ⟨h1.symm, ?_⟩)
            simp [hb.1, hb.2.1, hb.2.2.1, hb.2.2.2.1, hb.2.2.2.2.1,
                  hb.2.2.2.2.2.1, hb.2.2.2.2.2.2.1, hb.2.2.2.2.2.2.2, h2]
          · rw [if_neg hjt] at h
            exact absurd h (by simp)

/-- C2 witness: a concrete run of the amended theorem. -/
theorem C2_magic_amended_witness :
    read_magic ([0x6C, 0x6D, 0x67, 0x67] ++ [7, 7]) = .ok .gguf_ggml [7, 7] :=
  (C2_magic_amended [7, 7] [] (by intro b hb; cases hb)).1

/-! ### Priority-queue facts -/

theorem bigram_lt_false_iff (a b : llama_sp_bigram) :
    bigram_lt a b = false ↔
      b.score ≤ a.score ∧ (a.score = b.score → a.left ≤ b.left) := by
  simp only [bigram_lt, Bool.or_eq_false_iff, Bool.and_eq_false_iff,
    decide_eq_false_iff_not, not_lt, beq_eq_false_iff_ne, ne_eq]
  constructor
  · rintro ⟨h1, h2 | h2⟩
    · exact ⟨h1, fun he => absurd he h2⟩
    · exact ⟨h1, fun _ => h2⟩
  · rintro ⟨h1, h2⟩
    refine ⟨h1, ?_⟩
    by_cases he : a.score = b.score
    · exact Or.inr (h2 he)
    · exact Or.inl he

theorem bigram_lt_irrefl (a : llama_sp_bigram) : bigram_lt a a = false := by
  rw [bigram_lt_false_iff]
  exact ⟨le_refl _, fun _ => le_refl _⟩

theorem bigram_lt_asymm (a b : llama_sp_bigram) (h : bigram_lt a b = true) :
    bigram_lt b a = false := by
  simp only [bigram_lt, Bool.or_eq_true, Bool.and_eq_true,
    decide_eq_true_eq, beq_iff_eq] at h
  rw [bigram_lt_false_iff]
  rcases h with h | ⟨h1, h2⟩
  · exact ⟨le_of_lt h, fun he => absurd he.symm (ne_of_lt h)⟩
  · exact ⟨le_of_eq h1, fun _ => le_of_lt h2⟩

theorem bigram_lt_false_trans (a b c : llama_sp_bigram)
    (hab : bigram_lt a b = false) (hbc : bigram_lt b c = false) :
    bigram_lt a c = false := by
  rw [bigram_lt_false_iff] at hab hbc ⊢
  refine ⟨le_trans hbc.1 hab.1, fun he => ?_⟩
  have hsb : a.score = b.score := le_antisymm (he ▸ hbc.1) hab.1
  exact le_trans (hab.2 hsb) (hbc.2 (hsb ▸ he))

theorem popMaxGo_spec (l : List llama_sp_bigram) :
    ∀ best passed,
      ((popMaxGo best passed l).1 = best ∨ (popMaxGo best passed l).1 ∈ l) ∧
      bigram_lt (popMaxGo best passed l).1 best = false ∧
      ∀ c ∈ l, bigram_lt (popMaxGo best passed l).1 c = false := by
  induction l with
  | nil =>
    intro best passed
    exact ⟨Or.inl rfl, bigram_lt_irrefl best, by simp⟩
  | cons x xs ih =>
    intro best passed
    by_cases hbx : bigram_lt best x = true
    · have hxb : bigram_lt x best = false := bigram_lt_asymm _ _ hbx
      simp only [popMaxGo, hbx, if_pos]
      obtain ⟨hmem, hlt, hall⟩ := ih x (best :: passed)
      refine ⟨?_, ?_, ?_⟩
      · rcases hmem with h | h
        · exact Or.inr (by simp [h])
        · exact Or.inr (by simp [h])
      · exact bigram_lt_false_trans _ _ _ hlt hxb
      · intro c hc
        rcases List.mem_cons.mp hc with rfl | hc
        · exact hlt
        · exact hall c hc
    · have hbx' : bigram_lt best x = false := by
        cases h : bigram_lt best x
        · rfl
        · exact absurd h hbx
      simp only [popMaxGo, hbx', Bool.false_eq_true, if_false]
      obtain ⟨hmem, hlt, hall⟩ := ih best (x :: passed)
      refine ⟨?_, hlt, ?_⟩
      · rcases hmem with h | h
        · exact Or.inl h
        · exact Or.inr (by simp [h])
      · intro c hc
        rcases List.mem_cons.mp hc with rfl | hc
        · exact bigram_lt_false_trans _ _ _ hlt hbx'
        · exact hall c hc

/-- The popped queue entry belongs to the queue and no queue entry beats it
under the `llama_sp_bigram::comparator` priority: it has the highest score,
with score ties broken towards the smallest left symbol index. -/
theorem popMax_spec (q : List llama_sp_bigram) (b : llama_sp_bigram)
    (rest : List llama_sp_bigram) (h : popMax q = some (b, rest)) :
    b ∈ q ∧ ∀ c ∈ q, bigram_lt b c = false := by
  match q with
  | [] => simp [popMax] at h
  | x :: xs =>
    simp only [popMax, Option.some.injEq] at h
    obtain ⟨hmem, hlt, hall⟩ := popMaxGo_spec xs x []
    have hb : (popMaxGo x [] xs).1 = b := by rw [h]
    rw [hb] at hmem hlt hall
    refine ⟨?_, ?_⟩
    · rcases hmem with h' | h'
      · simp [h']
      · simp [h']
    · intro c hc
      rcases List.mem_cons.mp hc with rfl | hc
      · exact hlt
      · exact hall c hc

theorem popMaxGo_snd_length (l : List llama_sp_bigram) :
    ∀ best passed,
      (popMaxGo best passed l).2.length = passed.length + l.length := by
  induction l with
  | nil => intro best passed; simp [popMaxGo]
  | cons x xs ih =>
    intro best passed
    by_cases hbx : bigram_lt best x = true
    · simp only [popMaxGo, hbx, if_pos]
      rw [ih x (best :: passed)]
      simp; omega
    · have hbx' : bigram_lt best x = false := by
        cases h : bigram_lt best x
        · rfl
        · exact absurd h hbx
      simp only [popMaxGo, hbx', Bool.false_eq_true, if_false]
      rw [ih best (x :: passed)]
      simp; omega

theorem popMax_snd_length (q : List llama_sp_bigram) (b : llama_sp_bigram)
    (rest : List llama_sp_bigram) (h : popMax q = some (b, rest)) :
    rest.length + 1 = q.length := by
  match q with
  | [] => simp [popMax] at h
  | x :: xs =>
    simp only [popMax, Option.some.injEq] at h
    have := popMaxGo_snd_length xs x []
    rw [h] at this
    simpa using this

/-! ### Soundness of the fuel bounds -/

theorem list_set_of_length_le {α : Type} (l : List α) (i : Nat) (x : α)
    (h : l.length ≤ i) : l.set i x = l := by
  induction l generalizing i with
  | nil => simp
  | cons a t ih =>
    match i with
    | 0 => simp at h
    | j + 1 =>
      simp only [List.set_cons_succ, List.cons.injEq, true_and]
      exact ih j (by simpa using h)

theorem countP_set_add {α : Type} [Inhabited α] (p : α → Bool) (l : List α)
    (i : Nat) (x : α) (h : i < l.length) :
    (l.set i x).countP p + (if p (l.getD i default) then 1 else 0) =
      l.countP p + (if p x then 1 else 0) := by
  induction l generalizing i with
  | nil => simp at h
  | cons a t ih =>
    match i with
    | 0 =>
      simp only [List.set_cons_zero, List.countP_cons, List.getD_cons_zero]
      omega
    | j + 1 =>
      simp only [List.set_cons_succ, List.countP_cons, List.getD_cons_succ]
      have := ih j (by simpa using h)
      omega

theorem getD_set_self {α : Type} [Inhabited α] (l : List α) (i : Nat) (x : α)
    (h : i < l.length) : (l.set i x).getD i default = x := by
  induction l generalizing i with
  | nil => simp at h
  | cons a t ih =>
    match i with
    | 0 => simp
    | j + 1 =>
      simp only [List.set_cons_succ, List.getD_cons_succ]
      exact ih j (by simpa using h)

theorem getD_set_ne {α : Type} [Inhabited α] (l : List α) (i j : Nat) (x : α)
    (h : i ≠ j) : (l.set i x).getD j default = l.getD j default := by
  induction l generalizing i j with
  | nil => simp
  | cons a t ih =>
    match i, j with
    | 0, 0 => exact absurd rfl h
    | 0, _ + 1 => simp
    | _ + 1, 0 => simp
    | i + 1, j + 1 =>
      simp only [List.set_cons_succ, List.getD_cons_succ]
      exact ih i j (by omega)

theorem try_add_bigram_length (vocab : llama_vocab) (text : List Nat)
    (symbols : List llama_sp_symbol) (queue : List llama_sp_bigram)
    (left right : Int) :
    (try_add_bigram vocab text symbols queue left right).length ≤
      queue.length + 1 := by
  simp only [try_add_bigram]
  split
  · omega
  · split
    · omega
    · split
      · simp
      · omega

theorem activeCount_set_active (l : List llama_sp_symbol) (i : Nat)
    (x : llama_sp_symbol) (hi : i < l.length)
    (hold : (l.getD i default).n ≠ 0) (hx : x.n ≠ 0) :
    activeCount (l.set i x) = activeCount l := by
  have := countP_set_add (fun s => s.n != 0) l i x hi
  unfold activeCount
  simp only [bne_iff_ne, ne_eq] at this
  rw [if_pos hold, if_pos hx] at this
  omega

theorem activeCount_set_deactivate (l : List llama_sp_symbol) (i : Nat)
    (x : llama_sp_symbol) (hi : i < l.length)
    (hold : (l.getD i default).n ≠ 0) (hx : x.n = 0) :
    activeCount (l.set i x) + 1 = activeCount l := by
  have := countP_set_add (fun s => s.n != 0) l i x hi
  unfold activeCount
  simp only [bne_iff_ne, ne_eq] at this
  rw [if_pos hold, if_neg (by omega)] at this
  omega

theorem activeCount_set_same_n (l : List llama_sp_symbol) (i : Nat)
    (x : llama_sp_symbol) (hn : x.n = (l.getD i default).n) :
    activeCount (l.set i x) = activeCount l := by
  by_cases hi : i < l.length
  · have := countP_set_add (fun s => s.n != 0) l i x hi
    unfold activeCount
    simp only [bne_iff_ne, ne_eq] at this
    rw [hn] at this
    omega
  · rw [list_set_of_length_le _ _ _ (by omega)]

theorem default_symbol_n : (default : llama_sp_symbol).n = 0 := rfl

theorem getD_out_of_range (l : List llama_sp_symbol) (i : Nat)
    (h : l.length ≤ i) : l.getD i default = default := by
  rw [List.getD_eq_getElem?_getD, List.getElem?_eq_none (by omega),
      Option.getD_none]

/-- A successful merge consumes exactly one live symbol. -/
theorem activeCount_merge_symbols (symbols : List llama_sp_symbol)
    (b : llama_sp_bigram)
    (hln : (symbols.getD b.left default).n ≠ 0)
    (hrn : (symbols.getD b.right default).n ≠ 0) :
    activeCount (merge_symbols symbols b) + 1 = activeCount symbols := by
  have hl : b.left < symbols.length := by
    by_contra hc
    exact hln (by rw [getD_out_of_range _ _ (by omega), default_symbol_n])
  have hr : b.right < symbols.length := by
    by_contra hc
    exact hrn (by rw [getD_out_of_range _ _ (by omega), default_symbol_n])
  unfold merge_symbols
  set ls := symbols.getD b.left default with hls_def
  set rs := symbols.getD b.right default with hrs_def
  set L : llama_sp_symbol := { ls with n := ls.n + rs.n, next := rs.next }
    with hL_def
  set s1 := symbols.set b.left L with hs1_def
  set R : llama_sp_symbol := { rs with n := 0 } with hR_def
  set s2 := s1.set b.right R with hs2_def
  have hactive1 : activeCount s1 = activeCount symbols := by
    refine activeCount_set_active symbols b.left L hl ?_ ?_
    · exact hln
    · show ls.n + rs.n ≠ 0
      omega
  have hactive2 : activeCount s2 + 1 = activeCount symbols := by
    rw [← hactive1]
    refine activeCount_set_deactivate s1 b.right R
      (by rw [hs1_def, List.length_set]; exact hr) ?_ rfl
    by_cases he : b.left = b.right
    · rw [hs1_def, ← he, getD_set_self _ _ _ hl]
      show ls.n + rs.n ≠ 0
      omega
    · rw [hs1_def, getD_set_ne _ _ _ _ he, ← hrs_def]
      exact hrn
  by_cases hnext : (0 : Int) ≤ rs.next
  · rw [if_pos hnext]
    show activeCount (s2.set rs.next.toNat
      { s2.getD rs.next.toNat default with prev := (b.left : Int) }) + 1 =
      activeCount symbols
    have step : activeCount (s2.set rs.next.toNat
        { s2.getD rs.next.toNat default with prev := (b.left : Int) }) =
        activeCount s2 := activeCount_set_same_n _ _ _ rfl
    omega
  · rw [if_neg hnext]
    exact hactive2

/-- In the merge branch the active-symbol count drops by exactly one while
at most two queue entries are pushed, and in the skip branch the queue just
shrinks: the fuel measure strictly decreases every iteration. -/
theorem merge_step_measure (vocab : llama_vocab) (text : List Nat)
    (bigram : llama_sp_bigram) (rest : List llama_sp_bigram)
    (symbols : List llama_sp_symbol) :
    (merge_step vocab text bigram rest symbols).1.length +
      3 * activeCount (merge_step vocab text bigram rest symbols).2 <
    (rest.length + 1) + 3 * activeCount symbols := by
  by_cases hskip : (symbols.getD bigram.left default).n = 0 ∨
      (symbols.getD bigram.right default).n = 0 ∨
      (symbols.getD bigram.left default).n +
        (symbols.getD bigram.right default).n ≠ bigram.size
  · have heq : merge_step vocab text bigram rest symbols = (rest, symbols) := by
      simp only [merge_step]
      rw [if_pos hskip]
    rw [heq]
    dsimp only
    omega
  · have heq : merge_step vocab text bigram rest symbols =
        (try_add_bigram vocab text (merge_symbols symbols bigram)
          (try_add_bigram vocab text (merge_symbols symbols bigram) rest
            ((merge_symbols symbols bigram).getD bigram.left default).prev
            (bigram.left : Int))
          (bigram.left : Int)
          ((merge_symbols symbols bigram).getD bigram.left default).next,
         merge_symbols symbols bigram) := by
      simp only [merge_step]
      rw [if_neg hskip]
    push_neg at hskip
    obtain ⟨hln, hrn, _⟩ := hskip
    rw [heq]
    dsimp only
    have hq1 := try_add_bigram_length vocab text (merge_symbols symbols bigram)
      rest ((merge_symbols symbols bigram).getD bigram.left default).prev
      (bigram.left : Int)
    have hq2 := try_add_bigram_length vocab text (merge_symbols symbols bigram)
      (try_add_bigram vocab text (merge_symbols symbols bigram) rest
        ((merge_symbols symbols bigram).getD bigram.left default).prev
        (bigram.left : Int))
      (bigram.left : Int)
      ((merge_symbols symbols bigram).getD bigram.left default).next
    have hact := activeCount_merge_symbols symbols bigram hln hrn
    omega

theorem merge_loop_fuel_nil (vocab : llama_vocab) (text : List Nat)
    (fuel : Nat) (s : List llama_sp_symbol) :
    merge_loop_fuel vocab text fuel [] s = s := by
  cases fuel <;> simp [merge_loop_fuel, popMax]

/-- Any fuel at least `queue.length + 3 * activeCount symbols` computes the
same result: the fuel bound used by `merge_loop` is semantically inert. -/
theorem merge_loop_fuel_adequate (vocab : llama_vocab) (text : List Nat) :
    ∀ f1 f2 (q : List llama_sp_bigram) (s : List llama_sp_symbol),
      q.length + 3 * activeCount s ≤ f1 →
      q.length + 3 * activeCount s ≤ f2 →
      merge_loop_fuel vocab text f1 q s = merge_loop_fuel vocab text f2 q s := by
  intro f1
  induction f1 with
  | zero =>
    intro f2 q s h1 _
    have hq : q = [] := List.length_eq_zero.mp (by omega)
    subst hq
    rw [merge_loop_fuel_nil, merge_loop_fuel_nil]
  | succ f1 ih =>
    intro f2 q s h1 h2
    match q with
    | [] => rw [merge_loop_fuel_nil, merge_loop_fuel_nil]
    | x :: xs =>
      cases f2 with
      | zero =>
        exfalso
        simp only [List.length_cons] at h2
        omega
      | succ f2 =>
        have hpop : popMax (x :: xs) =
            some ((popMaxGo x [] xs).1, (popMaxGo x [] xs).2) := by
          simp [popMax]
        have hlen := popMax_snd_length _ _ _ hpop
        have hlen2 : (popMaxGo x [] xs).2.length = xs.length := by
          simpa using hlen
        have hstep := merge_step_measure vocab text (popMaxGo x [] xs).1
          (popMaxGo x [] xs).2 s
        simp only [merge_loop_fuel, hpop]
        simp only [List.length_cons] at h1 h2
        exact ih f2
          (merge_step vocab text (popMaxGo x [] xs).1 (popMaxGo x [] xs).2 s).1
          (merge_step vocab text (popMaxGo x [] xs).1 (popMaxGo x [] xs).2 s).2
          (by omega) (by omega)

theorem getD_nat_one_le (l : List Nat) (hl : ∀ x ∈ l, 1 ≤ x) (i : Nat) :
    1 ≤ l.getD i 1 := by
  rw [List.getD_eq_getElem?_getD]
  cases h : l[i]? with
  | none => simp
  | some x =>
    simp only [Option.getD_some]
    exact hl x (List.getElem?_mem h)

theorem utf8_len_pos (b : Nat) : 1 ≤ utf8_len b :=
  getD_nat_one_le _ (by decide) _

/-- Any fuel at least `text.length - offs` computes the same symbol list:
every iteration consumes at least one byte. -/
theorem seed_symbols_fuel_adequate (text : List Nat) :
    ∀ f1 f2 index offs,
      text.length - offs ≤ f1 → text.length - offs ≤ f2 →
      seed_symbols_fuel text f1 index offs =
        seed_symbols_fuel text f2 index offs := by
  intro f1
  induction f1 with
  | zero =>
    intro f2 index offs h1 _
    have hoffs : ¬ offs < text.length := by omega
    cases f2 with
    | zero => rfl
    | succ f2 => simp [seed_symbols_fuel, hoffs]
  | succ f1 ih =>
    intro f2 index offs h1 h2
    by_cases hoffs : offs < text.length
    · cases f2 with
      | zero => omega
      | succ f2 =>
        simp only [seed_symbols_fuel, hoffs, if_pos, List.cons.injEq, true_and]
        have hcl : 1 ≤ min (text.length - offs) (utf8_len (text.getD offs 0)) := by
          have := utf8_len_pos (text.getD offs 0)
          omega
        exact ih f2 (index + 1)
          (offs + min (text.length - offs) (utf8_len (text.getD offs 0)))
          (by omega) (by omega)
    · cases f2 with
      | zero => simp [seed_symbols_fuel, hoffs]
      | succ f2 => simp [seed_symbols_fuel, hoffs]

/-- C6.  Tokenizing "abc" (bytes 97 98 99) over the scenario vocabulary
yields exactly `[13]`; in general the merge loop pops a maximal-priority
queue entry — highest score, score ties broken towards the smaller left
symbol index (`popMax_spec`) — and an entry that fails the validity check
(a consumed symbol or a stale size) is discarded without changing the
symbol chain.  The embedding is a pure function of `(vocab, text)`, so
segmentation is deterministic. -/
theorem C6_tokenizer_merge_order
    (q : List llama_sp_bigram) (b : llama_sp_bigram)
    (rest : List llama_sp_bigram) (hpop : popMax q = some (b, rest))
    (vocab : llama_vocab) (text : List Nat) (b2 : llama_sp_bigram)
    (rest2 : List llama_sp_bigram) (s : List llama_sp_symbol)
    (hstale : (s.getD b2.left default).n = 0 ∨
      (s.getD b2.right default).n = 0 ∨
      (s.getD b2.left default).n + (s.getD b2.right default).n ≠ b2.size) :
    llama_tokenizer_tokenize abcVocab [97, 98, 99] = [13] ∧
    (b ∈ q ∧ ∀ c ∈ q, bigram_lt b c = false) ∧
    merge_step vocab text b2 rest2 s = (rest2, s) := by
  refine ⟨by decide, popMax_spec q b rest hpop, ?_⟩
  simp only [merge_step]
  rw [if_pos hstale]

/-- C6 witness: a concrete queue pop and a concrete stale entry. -/
theorem C6_tokenizer_merge_order_witness :
    llama_tokenizer_tokenize abcVocab [97, 98, 99] = [13] ∧
    ((⟨0, 1, 1, 2⟩ : llama_sp_bigram) ∈ [(⟨0, 1, 1, 2⟩ : llama_sp_bigram)] ∧
      ∀ c ∈ [(⟨0, 1, 1, 2⟩ : llama_sp_bigram)],
        bigram_lt ⟨0, 1, 1, 2⟩ c = false) ∧
    merge_step emptyVocab [] ⟨0, 0, 0, 0⟩ [] [] = ([], []) :=
  C6_tokenizer_merge_order [⟨0, 1, 1, 2⟩] ⟨0, 1, 1, 2⟩ [] rfl
    emptyVocab [] ⟨0, 0, 0, 0⟩ [] [] (Or.inl rfl)

/-- C7.  Tokenizing the single four-byte UTF-8 character `F0 9F 99 82`
with an empty vocabulary yields `[243, 162, 156, 133]`, and in general a
surviving symbol whose bytes are not a vocabulary key is emitted as one id
per raw byte with id = byte + 3. -/
theorem C7_utf8_byte_fallback (vocab : llama_vocab) (bs : List Nat)
    (h : vocab_find vocab bs = none) :
    llama_tokenize_static emptyVocab [0xF0, 0x9F, 0x99, 0x82] false =
      [243, 162, 156, 133] ∧
    emit_one vocab bs = bs.map (· + 3) := by
  refine ⟨by decide, ?_⟩
  simp [emit_one, h]

/-- C7 witness: the byte 0xFB alone is not a key of the empty vocabulary. -/
theorem C7_utf8_byte_fallback_witness :
    llama_tokenize_static emptyVocab [0xF0, 0x9F, 0x99, 0x82] false =
      [243, 162, 156, 133] ∧
    emit_one emptyVocab [0xFB] = [0xFB].map (· + 3) :=
  C7_utf8_byte_fallback emptyVocab [0xFB] rfl

/-- C9.  With `L` the length of the full tokenization (BOS id 1 prepended
when requested and the text is non-empty; empty text tokenizes to `[]`
with no BOS), the API returns `L` and writes the ids when `L ≤
n_max_tokens`, and returns `-L` writing nothing when `L > n_max_tokens`. -/
theorem C9_tokenize_api_bounds (vocab : llama_vocab) (text : List Nat)
    (n_max : Int) (add_bos : Bool) :
    (((llama_tokenize_static vocab text add_bos).length : Int) ≤ n_max →
      llama_tokenize_api vocab text n_max add_bos =
        (((llama_tokenize_static vocab text add_bos).length : Int),
         llama_tokenize_static vocab text add_bos)) ∧
    (n_max < ((llama_tokenize_static vocab text add_bos).length : Int) →
      llama_tokenize_api vocab text n_max add_bos =
        (-((llama_tokenize_static vocab text add_bos).length : Int), [])) ∧
    llama_tokenize_static vocab [] add_bos = [] ∧
    (text ≠ [] →
      llama_tokenize_static vocab text true =
        1 :: llama_tokenizer_tokenize vocab text) := by
  refine ⟨?_, ?_, ?_, ?_⟩
  · intro h
    simp only [llama_tokenize_api]
    rw [if_neg (not_lt.mpr h)]
  · intro h
    simp only [llama_tokenize_api]
    rw [if_pos h]
  · simp [llama_tokenize_static]
  · intro h
    have hne : ¬ text.length = 0 := fun hc => h (List.length_eq_zero.mp hc)
    simp [llama_tokenize_static, hne]

/-- C9 witness: "abc" with BOS fits in 10 slots and carries the BOS id. -/
theorem C9_tokenize_api_bounds_witness :
    llama_tokenize_api abcVocab [97, 98, 99] 10 true =
      (((llama_tokenize_static abcVocab [97, 98, 99] true).length : Int),
       llama_tokenize_static abcVocab [97, 98, 99] true) ∧
    llama_tokenize_api abcVocab [97, 98, 99] 1 true =
      (-((llama_tokenize_static abcVocab [97, 98, 99] true).length : Int), []) ∧
    llama_tokenize_static abcVocab [97, 98, 99] true =
      1 :: llama_tokenizer_tokenize abcVocab [97, 98, 99] :=
  ⟨(C9_tokenize_api_bounds abcVocab [97, 98, 99] 10 true).1 (by decide),
   (C9_tokenize_api_bounds abcVocab [97, 98, 99] 1 true).2.1 (by decide),
   (C9_tokenize_api_bounds abcVocab [97, 98, 99] 10 true).2.2.2 (by decide)⟩

theorem argmax_go_spec (logits : List Rat) :
    ∀ (rest : List Rat) (i max_id : Nat) (max_logit : Rat),
      rest = logits.drop i →
      max_id < i →
      max_id < logits.length →
      logits.getD max_id 0 = max_logit →
      (∀ j < i, logits.getD j 0 ≤ max_logit) →
      (∀ j < max_id, logits.getD j 0 < max_logit) →
      argmax_go rest i max_id max_logit < logits.length ∧
      (∀ j < logits.length,
        logits.getD j 0 ≤ logits.getD (argmax_go rest i max_id max_logit) 0) ∧
      (∀ j < argmax_go rest i max_id max_logit,
        logits.getD j 0 < logits.getD (argmax_go rest i max_id max_logit) 0) := by
  intro rest
  induction rest with
  | nil =>
    intro i max_id max_logit hrest hmi hml hval hle hfirst
    have hlen : logits.length ≤ i := by
      by_contra hc
      have : (logits.drop i).length = logits.length - i := List.length_drop i logits
      rw [← hrest] at this
      simp at this
      omega
    simp only [argmax_go]
    refine ⟨hml, ?_, ?_⟩
    · intro j hj
      rw [hval]
      exact hle j (by omega)
    · intro j hj
      rw [hval]
      exact hfirst j hj
  | cons x rest2 ih =>
    intro i max_id max_logit hrest hmi hml hval hle hfirst
    have hx : logits[i]? = some x := by
      have h0 : (logits.drop i)[0]? = some x := by rw [← hrest]; simp
      rwa [List.getElem?_drop, Nat.add_zero] at h0
    have hi : i < logits.length := by
      by_contra hc
      rw [List.getElem?_eq_none (by omega)] at hx
      exact Option.noConfusion hx
    have hxval : logits.getD i 0 = x := by
      rw [List.getD_eq_getElem?_getD, hx, Option.getD_some]
    have hrest2 : rest2 = logits.drop (i + 1) := by
      have h2 : (logits.drop i).drop 1 = logits.drop (i + 1) := List.drop_drop 1 i logits
      rw [← hrest] at h2
      simpa using h2
    by_cases hcmp : max_logit < x
    · simp only [argmax_go, if_pos hcmp]
      refine ih (i + 1) i x hrest2 (by omega) hi hxval ?_ ?_
      · intro j hj
        by_cases hji : j = i
        · rw [hji, hxval]
        · exact le_of_lt (lt_of_le_of_lt (hle j (by omega)) hcmp)
      · intro j hj
        exact lt_of_le_of_lt (hle j hj) hcmp
    · simp only [argmax_go, if_neg hcmp]
      refine ih (i + 1) max_id max_logit hrest2 (by omega) hml hval ?_ hfirst
      intro j hj
      by_cases hji : j = i
      · rw [hji, hxval]
        exact le_of_not_lt hcmp
      · exact hle j (by omega)

theorem sample_argmax_spec (logits : List Rat) (hne : 0 < logits.length) :
    sample_argmax logits < logits.length ∧
    (∀ j < logits.length,
      logits.getD j 0 ≤ logits.getD (sample_argmax logits) 0) ∧
    (∀ j < sample_argmax logits,
      logits.getD j 0 < logits.getD (sample_argmax logits) 0) := by
  unfold sample_argmax
  exact argmax_go_spec logits (logits.drop 1) 1 0 (logits.getD 0 0) rfl
    (by omega) hne rfl
    (fun j hj => by
      have : j = 0 := by omega
      rw [this])
    (fun j hj => by omega)

/-- C4.  With `temp ≤ 0` the sampler returns the index of the maximum
logit (the first maximiser), drawing no randomness and applying no
repetition penalty: the result is independent of the RNG draw, the
`last_n_tokens` window, `top_k`, `top_p`, `repeat_penalty` and the `exp`
implementation. -/
theorem C4_sampler_argmax (logits : List Rat)
    (last_n1 last_n2 : List Nat) (top_k1 top_k2 : Int)
    (top_p1 top_p2 temp1 temp2 rp1 rp2 : Rat)
    (e1 e2 : Rat → Rat) (d1 d2 : List Rat → Nat)
    (h1 : temp1 ≤ 0) (h2 : temp2 ≤ 0) (hne : 0 < logits.length) :
    llama_sample_top_p_top_k logits last_n1 top_k1 top_p1 temp1 rp1 e1 d1 =
      llama_sample_top_p_top_k logits last_n2 top_k2 top_p2 temp2 rp2 e2 d2 ∧
    llama_sample_top_p_top_k logits last_n1 top_k1 top_p1 temp1 rp1 e1 d1 <
      logits.length ∧
    (∀ j < logits.length, logits.getD j 0 ≤ logits.getD
      (llama_sample_top_p_top_k logits last_n1 top_k1 top_p1 temp1 rp1 e1 d1) 0) ∧
    (∀ j < llama_sample_top_p_top_k logits last_n1 top_k1 top_p1 temp1 rp1 e1 d1,
      logits.getD j 0 < logits.getD
        (llama_sample_top_p_top_k logits last_n1 top_k1 top_p1 temp1 rp1 e1 d1) 0) := by
  have he1 : llama_sample_top_p_top_k logits last_n1 top_k1 top_p1 temp1 rp1 e1 d1 =
      sample_argmax logits := by
    simp only [llama_sample_top_p_top_k, if_pos h1]
  have he2 : llama_sample_top_p_top_k logits last_n2 top_k2 top_p2 temp2 rp2 e2 d2 =
      sample_argmax logits := by
    simp only [llama_sample_top_p_top_k, if_pos h2]
  obtain ⟨hlt, hmax, hfirst⟩ := sample_argmax_spec logits hne
  rw [he1, he2]
  exact ⟨rfl, hlt, hmax, hfirst⟩

/-- C4 witness: logits `[1, 3, 2]`, two different RNG draws and parameter
sets; the sampler returns index 1 both times. -/
theorem C4_sampler_argmax_witness :
    llama_sample_top_p_top_k [1, 3, 2] [0] 1 1 0 2 (fun x => x) (fun _ => 0) =
      llama_sample_top_p_top_k [1, 3, 2] [] 40 (9/10) (-1) 5 (fun _ => 0)
        (fun _ => 7) ∧
    llama_sample_top_p_top_k [1, 3, 2] [0] 1 1 0 2 (fun x => x) (fun _ => 0) <
      ([1, 3, 2] : List Rat).length ∧
    (∀ j < ([1, 3, 2] : List Rat).length,
      ([1, 3, 2] : List Rat).getD j 0 ≤ ([1, 3, 2] : List Rat).getD
        (llama_sample_top_p_top_k [1, 3, 2] [0] 1 1 0 2 (fun x => x) (fun _ => 0)) 0) ∧
    (∀ j < llama_sample_top_p_top_k [1, 3, 2] [0] 1 1 0 2 (fun x => x) (fun _ => 0),
      ([1, 3, 2] : List Rat).getD j 0 < ([1, 3, 2] : List Rat).getD
        (llama_sample_top_p_top_k [1, 3, 2] [0] 1 1 0 2 (fun x => x) (fun _ => 0)) 0) :=
  C4_sampler_argmax [1, 3, 2] [0] [] 1 40 1 (9/10) 0 (-1) 2 5
    (fun x => x) (fun _ => 0) (fun _ => 0) (fun _ => 7)
    (by norm_num) (by norm_num) (by decide)

/-- C5.  For `temp > 0`, an id in the `last_n_tokens` window gets scaled
logit `(logits[i]/temp)*repeat_penalty` when `logits[i] < 0` and
`(logits[i]/temp)/repeat_penalty` otherwise, while other ids are scaled by
`1/temp` only; concretely, with logits `[-2, 2]`, window `[0]`, `temp = 1`,
`repeat_penalty = 2`, id 0 scales to `-4` and id 1 to `2`. -/
theorem C5_repetition_penalty (logits : List Rat) (last_n : List Nat)
    (temp rp : Rat) (ht : 0 < temp) (i : Nat) (hi : i < logits.length) :
    (scaled_logits logits last_n temp rp).getD i default =
      ((if last_n.contains i then
          if logits.getD i 0 < 0 then logits.getD i 0 / temp * rp
          else logits.getD i 0 / temp / rp
        else logits.getD i 0 / temp), i) ∧
    scaled_logits [-2, 2] [0] 1 2 = [(-4, 0), (2, 1)] := by
  constructor
  · have hmap : (scaled_logits logits last_n temp rp).getD i default =
        (fun i =>
          if last_n.contains i then
            if logits.getD i 0 < 0 then
              (logits.getD i 0 * (1 / temp) * rp, i)
            else
              (logits.getD i 0 * (1 / temp) / rp, i)
          else (logits.getD i 0 * (1 / temp), i)) i := by
      rw [scaled_logits]
      rw [List.getD_eq_getElem?_getD, List.getElem?_map, List.getElem?_range hi]
      rfl
    rw [hmap]
    by_cases hc : last_n.contains i = true
    · have hm : i ∈ last_n := by simpa using hc
      simp [hc, hm, div_eq_mul_inv]
      split_ifs <;> rfl
    · have hm : i ∉ last_n := by simpa using hc
      simp [hc, hm, div_eq_mul_inv]
  · unfold scaled_logits
    norm_num [List.range_succ]

/-- C5 witness: the concrete scenario at id 0. -/
theorem C5_repetition_penalty_witness :
    (scaled_logits [-2, 2] [0] 1 2).getD 0 default =
      ((if List.contains [0] 0 then
          if ([-2, 2] : List Rat).getD 0 0 < 0 then
            ([-2, 2] : List Rat).getD 0 0 / 1 * 2
          else ([-2, 2] : List Rat).getD 0 0 / 1 / 2
        else ([-2, 2] : List Rat).getD 0 0 / 1), 0) ∧
    scaled_logits [-2, 2] [0] 1 2 = [(-4, 0), (2, 1)] :=
  C5_repetition_penalty [-2, 2] [0] 1 2 (by norm_num) 0 (by decide)

theorem str_rfind_go_some (hay pat : List Nat) :
    ∀ j m, str_rfind_go hay pat j = some m →
      m + pat.length ≤ hay.length ∧ (hay.drop m).take pat.length = pat := by
  intro j
  induction j with
  | zero => intro m h; simp [str_rfind_go] at h
  | succ i ih =>
    intro m h
    by_cases hc : i + pat.length ≤ hay.length ∧
        (hay.drop i).take pat.length = pat
    · rw [str_rfind_go, if_pos hc] at h
      cases h
      exact hc
    · rw [str_rfind_go, if_neg hc] at h
      exact ih m h

theorem str_rfind_go_top (hay pat : List Nat) (hL : pat.length ≤ hay.length)
    (hmatch : (hay.drop (hay.length - pat.length)).take pat.length = pat) :
    ∀ d, str_rfind_go hay pat (hay.length - pat.length + 1 + d) =
      some (hay.length - pat.length) := by
  intro d
  induction d with
  | zero =>
    rw [str_rfind_go, if_pos ⟨by omega, hmatch⟩]
  | succ d ih =>
    have : hay.length - pat.length + 1 + (d + 1) =
        (hay.length - pat.length + 1 + d) + 1 := by omega
    rw [this, str_rfind_go, if_neg ?_]
    · exact ih
    · rintro ⟨h1, _⟩
      omega

/-- For a name of length at least 6 (every tensor name of the model layout
is), the eligibility test is exactly "ends with `weight`". -/
theorem quantize_name_flag_iff (name : List Nat) (hlen : 6 ≤ name.length)
    (hsz : name.length < 2^64) :
    quantize_name_flag name = true ↔ weight_name <:+ name := by
  have hwl : weight_name.length = 6 := rfl
  have hmod : (name.length + 2^64 - 6) % 2^64 = name.length - 6 := by omega
  have hmatch_iff : (name.drop (name.length - 6)).take 6 = weight_name ↔
      weight_name <:+ name := by
    have hdl : (name.drop (name.length - 6)).length = 6 := by
      rw [List.length_drop]
      omega
    rw [List.take_of_length_le (by omega)]
    constructor
    · intro h
      rw [List.suffix_iff_eq_drop, hwl, ← h]
    · intro h
      rw [List.suffix_iff_eq_drop, hwl] at h
      exact h.symm
  unfold quantize_name_flag
  rw [hmod]
  constructor
  · intro h
    cases hfind : str_rfind name weight_name with
    | none =>
      rw [hfind] at h
      simp only [Option.getD_none, npos, decide_eq_true_eq] at h
      omega
    | some m =>
      rw [hfind] at h
      simp only [Option.getD_some, decide_eq_true_eq] at h
      obtain ⟨hm1, hm2⟩ := str_rfind_go_some name weight_name _ m hfind
      rw [hwl] at hm1 hm2
      rw [← hmatch_iff, ← h]
      exact hm2
  · intro h
    have hmatch : (name.drop (name.length - 6)).take 6 = weight_name :=
      hmatch_iff.mpr h
    have hfind : str_rfind name weight_name = some (name.length - 6) := by
      unfold str_rfind
      have hidx : name.length + 1 = name.length - weight_name.length + 1 + 6 := by
        rw [hwl]; omega
      rw [hidx, hwl]
      exact str_rfind_go_top name weight_name (by rw [hwl]; omega)
        (by rw [hwl]; exact hmatch) 6
    rw [hfind]
    simp

/-- C8.  The eligibility test `name.rfind("weight") == name.size() - 6`
wraps for 5-byte names: `rfind` returns `npos` and `size() - 6` underflows
to `npos`, so a 2-D tensor named `abcde` is quantized even though its name
does not end in `weight` — contradicting the inline comment
"ends with 'weight'?" and the claim.  For names of length ≥ 6 the test is
exactly "ends with `weight`", and an ineligible tensor keeps its dtype and
bytes. -/
theorem C8_quantize_eligibility (qt : ggml_type)
    (kernel : quant_tensor → List Nat) (t : quant_tensor)
    (hflag : tensor_quantize_flag t.name t.ne.length = false)
    (name : List Nat) (hlen : 6 ≤ name.length) (hsz : name.length < 2^64) :
    tensor_quantize_flag [97, 98, 99, 100, 101] 2 = true ∧
    ¬ weight_name <:+ [97, 98, 99, 100, 101] ∧
    quantize_tensor_out qt kernel t = (t.type, t.data) ∧
    (tensor_quantize_flag name 2 = true ↔ weight_name <:+ name) := by
  refine ⟨by decide, by decide, ?_, ?_⟩
  · unfold quantize_tensor_out
    rw [if_pos (by rw [hflag]; exact Bool.false_ne_true)]
  · rw [tensor_quantize_flag, Bool.and_eq_true]
    rw [quantize_name_flag_iff name hlen hsz]
    simp

/-- C8 witness: the 5-byte name `abcde` on a 2-D F16 tensor is converted
by the quantizer, and a genuinely ineligible 1-D tensor is copied. -/
theorem C8_quantize_eligibility_witness :
    tensor_quantize_flag [97, 98, 99, 100, 101] 2 = true ∧
    ¬ weight_name <:+ [97, 98, 99, 100, 101] ∧
    quantize_tensor_out .Q4_0 (fun _ => [9])
      ⟨[0x61], [4], .F16, [1, 2, 3, 4]⟩ = (.F16, [1, 2, 3, 4]) ∧
    (tensor_quantize_flag ([0x6E, 0x6F, 0x72, 0x6D, 0x2E] ++ weight_name) 2 =
        true ↔
      weight_name <:+ ([0x6E, 0x6F, 0x72, 0x6D, 0x2E] ++ weight_name)) :=
  C8_quantize_eligibility .Q4_0 (fun _ => [9]) ⟨[0x61], [4], .F16, [1, 2, 3, 4]⟩
    (by decide) ([0x6E, 0x6F, 0x72, 0x6D, 0x2E] ++ weight_name)
    (by decide) (by decide)

/-- C1 (code bug).  `llama_eval_internal` never writes `kv_self.n`; the
counter read by `llama_get_kv_cache_token_count` is unchanged by any eval,
so after a batch of one token on a fresh session it still reads 0 where
the claim requires 1. -/
theorem C1_kv_counter_not_advanced :
    (∀ (gc : List Int → Int → graph_output) (ctx : llama_context)
        (tokens : List Int) (n_past n_threads : Int),
      llama_get_kv_cache_token_count
          (llama_eval gc ctx tokens n_past n_threads).2 =
        llama_get_kv_cache_token_count ctx) ∧
    llama_get_kv_cache_token_count
      (llama_eval (fun _ _ => ⟨[0], [], []⟩) freshCtx [5] 0 1).2 = 0 := by
  constructor
  · intro gc ctx tokens n_past n_threads
    rfl
  · rfl

/-- C10.  Ids at or above `n_vocab` give the null pointer; ids in
`[0, n_vocab)` give the stored token bytes. -/
theorem C10_token_to_str_range (vocab : llama_vocab) (token : Int) :
    (llama_n_vocab vocab ≤ token → llama_token_to_str vocab token = none) ∧
    (0 ≤ token → token < llama_n_vocab vocab →
      llama_token_to_str vocab token =
        some (vocab.id_to_token.getD token.toNat ([], 0)).1) := by
  constructor
  · intro h
    simp only [llama_token_to_str, if_pos h]
  · intro h0 hlt
    simp only [llama_token_to_str, if_neg (not_le.mpr hlt),
      if_neg (not_lt.mpr h0)]

/-- C10 witness: id 20 is out of range for the 15-entry vocabulary, id 13
stores the bytes of "abc". -/
theorem C10_token_to_str_range_witness :
    llama_token_to_str abcVocab 20 = none ∧
    llama_token_to_str abcVocab 13 =
      some (abcVocab.id_to_token.getD (Int.toNat 13) ([], 0)).1 :=
  ⟨(C10_token_to_str_range abcVocab 20).1 (by decide),
   (C10_token_to_str_range abcVocab 13).2 (by decide) (by decide)⟩

theorem i32le_length (n : Int) : (i32le n).length = 4 := rfl

theorem readBytes_of_length (n : Nat) (a b : List Nat) (h : a.length = n) :
    readBytes n (a ++ b) = some (a, b) := by
  subst h
  exact readBytes_append a b

theorem readBytes_all (s : List Nat) : readBytes s.length s = some (s, []) := by
  simp [readBytes]

theorem flatten_map_length (f32le : Rat → List Nat)
    (hf : ∀ x, (f32le x).length = 4) (l : List Rat) :
    (l.map f32le).flatten.length = l.length * 4 := by
  induction l with
  | nil => simp
  | cons x xs ih =>
    simp only [List.map_cons, List.flatten_cons, List.length_append, hf, ih,
      List.length_cons]
    omega

/-- `llama_set_state_data` on a well-formed blob, chunk by chunk: the
header fields decode to the expected sizes, every assert passes, and the
consumed byte count is the full serialized size. -/
theorem llama_set_state_on_blob (b2f : List Nat → Rat) (ctx : llama_context)
    (a1 r a2 a3 l a4 e a5 nt k : List Nat)
    (rng_len cap size emb kv : Nat)
    (ha1 : a1.length = 8) (hr : r.length = 64 * 1024)
    (ha2 : a2.length = 8) (ha3 : a3.length = 8)
    (ha4 : a4.length = 8) (ha5 : a5.length = 8) (hnt : nt.length = 4)
    (hv1 : natFromLE a1 = rng_len) (hv2 : natFromLE a2 = cap)
    (hv3 : natFromLE a3 = size)
    (hv4 : natFromLE a4 = emb) (hv5 : natFromLE a5 = kv)
    (hl : l.length = cap * 4) (he : e.length = emb * 4) (hk : k.length = kv)
    (hrng : rng_len ≤ 64 * 1024)
    (hgc : ctx.logits_capacity = cap)
    (hge : ctx.embedding.length = emb)
    (hkv0 : 0 < kv) (hgk : ctx.kv_buf.length = kv) :
    (llama_set_state_data b2f ctx
        (a1 ++ (r ++ (a2 ++ (a3 ++ (l ++ (a4 ++ (e ++ (a5 ++ (nt ++ k)))))))))).map
        Prod.snd =
      some (8 + 64 * 1024 + 8 + 8 + cap * 4 + 8 + emb * 4 + 8 + 4 + kv) := by
  simp only [llama_set_state_data]
  rw [readBytes_of_length 8 a1 _ ha1]
  simp only [Option.bind_eq_bind, Option.bind]
  rw [readBytes_of_length (64 * 1024) r _ hr]
  simp only [Option.bind]
  rw [hv1, if_pos hrng]
  rw [readBytes_of_length 8 a2 _ ha2]
  simp only [Option.bind]
  rw [readBytes_of_length 8 a3 _ ha3]
  simp only [Option.bind]
  rw [hv2, if_pos hgc]
  rw [readBytes_of_length (cap * 4) l _ hl]
  simp only [Option.bind]
  rw [readBytes_of_length 8 a4 _ ha4]
  simp only [Option.bind]
  rw [hv4, if_pos hge]
  by_cases hez : emb = 0
  · have henil : e = [] := List.length_eq_zero.mp (by omega)
    rw [henil]
    simp only [hez, ne_eq, not_true_eq_false, if_false, ite_false,
      List.nil_append]
    rw [readBytes_of_length 8 a5 _ ha5]
    simp only [Option.bind]
    rw [readBytes_of_length 4 nt _ hnt]
    simp only [Option.bind]
    rw [hv5, if_pos (by omega)]
    rw [if_pos (by rw [llama_get_kv_cache_size, hgk])]
    rw [show readBytes kv k = some (k, []) from by rw [← hk]; exact readBytes_all k]
    simp only [Option.bind, Option.map, List.length_nil, Nat.sub_zero,
      List.length_append, ha1, hr, ha2, ha3, hl, ha4, ha5, hnt, hk,
      Option.some.injEq]
    omega
  · simp only [hez, ne_eq, not_false_eq_true, if_true, ite_true]
    rw [readBytes_of_length (emb * 4) e _ he]
    simp only [Option.bind]
    rw [readBytes_of_length 8 a5 _ ha5]
    simp only [Option.bind]
    rw [readBytes_of_length 4 nt _ hnt]
    simp only [Option.bind]
    rw [hv5, if_pos (by omega)]
    rw [if_pos (by rw [llama_get_kv_cache_size, hgk])]
    rw [show readBytes kv k = some (k, []) from by rw [← hk]; exact readBytes_all k]
    simp only [Option.bind, Option.map, List.length_nil, Nat.sub_zero,
      List.length_append, ha1, hr, ha2, ha3, hl, ha4, he, ha5, hnt, hk,
      Option.some.injEq]
    omega

/-- C3.  The byte count returned by `llama_get_state_size` equals the
number of bytes `llama_copy_state_data` writes, and `llama_set_state_data`
applied to that blob succeeds and consumes exactly that many bytes.  The
hypotheses state the session is well formed: the float encoding is 4 bytes
wide, the logits fit their capacity, the serialized RNG fits the 64 KiB
buffer (a `std::mt19937` stream is ~6.7 KB), the sizes fit `size_t`, and
the KV buffer of an initialized session is non-empty. -/
theorem C3_state_size_roundtrip (ctx : llama_context)
    (f32le : Rat → List Nat) (b2f : List Nat → Rat)
    (hf : ∀ x, (f32le x).length = 4)
    (hsz : ctx.logits.length ≤ ctx.logits_capacity)
    (hrng : ctx.rng_bytes.length ≤ 64 * 1024)
    (hcap : ctx.logits_capacity < 2^64)
    (hemb : ctx.embedding.length < 2^64)
    (hkv : ctx.kv_buf.length < 2^64)
    (hkv0 : 0 < ctx.kv_buf.length) :
    (llama_copy_state_data f32le ctx).length = llama_get_state_size ctx ∧
    (llama_set_state_data b2f ctx (llama_copy_state_data f32le ctx)).map
        Prod.snd =
      some (llama_get_state_size ctx) := by
  have hRlen : (ctx.rng_bytes.take (64 * 1024) ++
      List.replicate (64 * 1024 - ctx.rng_bytes.length) 0).length = 64 * 1024 := by
    simp [List.length_take]
    omega
  have hLlen : ((ctx.logits.map f32le).flatten ++
      List.replicate ((ctx.logits_capacity - ctx.logits.length) * 4) 0).length =
      ctx.logits_capacity * 4 := by
    rw [List.length_append, flatten_map_length f32le hf, List.length_replicate]
    omega
  have hElen : (ctx.embedding.map f32le).flatten.length =
      ctx.embedding.length * 4 := flatten_map_length f32le hf _
  have hlen1 : (llama_copy_state_data f32le ctx).length =
      llama_get_state_size ctx := by
    simp only [llama_copy_state_data, llama_get_state_size,
      llama_get_kv_cache_size, List.length_append, u64le_length, i32le_length,
      hRlen, hLlen, hElen]
    omega
  refine ⟨hlen1, ?_⟩
  have hblob := llama_set_state_on_blob b2f ctx
    (u64le ctx.rng_bytes.length)
    (ctx.rng_bytes.take (64 * 1024) ++
      List.replicate (64 * 1024 - ctx.rng_bytes.length) 0)
    (u64le ctx.logits_capacity) (u64le ctx.logits.length)
    ((ctx.logits.map f32le).flatten ++
      List.replicate ((ctx.logits_capacity - ctx.logits.length) * 4) 0)
    (u64le ctx.embedding.length) ((ctx.embedding.map f32le).flatten)
    (u64le ctx.kv_buf.length) (i32le ctx.kv_n) ctx.kv_buf
    ctx.rng_bytes.length ctx.logits_capacity ctx.logits.length
    ctx.embedding.length ctx.kv_buf.length
    (u64le_length _) hRlen (u64le_length _) (u64le_length _) (u64le_length _)
    (u64le_length _) (i32le_length _)
    (by rw [natFromLE_u64le, Nat.mod_eq_of_lt (by omega)])
    (by rw [natFromLE_u64le, Nat.mod_eq_of_lt hcap])
    (by rw [natFromLE_u64le, Nat.mod_eq_of_lt (by omega)])
    (by rw [natFromLE_u64le, Nat.mod_eq_of_lt hemb])
    (by rw [natFromLE_u64le, Nat.mod_eq_of_lt hkv])
    hLlen hElen rfl hrng rfl rfl hkv0 rfl
  rw [show llama_copy_state_data f32le ctx =
      (u64le ctx.rng_bytes.length) ++
      ((ctx.rng_bytes.take (64 * 1024) ++
        List.replicate (64 * 1024 - ctx.rng_bytes.length) 0) ++
      ((u64le ctx.logits_capacity) ++ ((u64le ctx.logits.length) ++
      (((ctx.logits.map f32le).flatten ++
        List.replicate ((ctx.logits_capacity - ctx.logits.length) * 4) 0) ++
      ((u64le ctx.embedding.length) ++ (((ctx.embedding.map f32le).flatten) ++
      ((u64le ctx.kv_buf.length) ++ ((i32le ctx.kv_n) ++
      ctx.kv_buf)))))))) from rfl]
  rw [hblob]
  have hsize : llama_get_state_size ctx =
      8 + 64 * 1024 + 8 + 8 + ctx.logits_capacity * 4 + 8 +
        ctx.embedding.length * 4 + 8 + 4 + ctx.kv_buf.length := by
    simp only [llama_get_state_size, llama_get_kv_cache_size]
  rw [hsize]

/-- C3 witness: a small concrete session round-trips with the placeholder
float codec. -/
theorem C3_state_size_roundtrip_witness :
    (llama_copy_state_data (fun _ => [0, 0, 0, 0])
        { rng_bytes := [1, 2], logits := [5], logits_capacity := 2,
          embedding := [7], kv_buf := [9, 9], kv_n := 1,
          n_eval := 0, n_p_eval := 0, has_evaluated_once := true }).length =
      llama_get_state_size
        { rng_bytes := [1, 2], logits := [5], logits_capacity := 2,
          embedding := [7], kv_buf := [9, 9], kv_n := 1,
          n_eval := 0, n_p_eval := 0, has_evaluated_once := true } ∧
    (llama_set_state_data (fun _ => 0)
        { rng_bytes := [1, 2], logits := [5], logits_capacity := 2,
          embedding := [7], kv_buf := [9, 9], kv_n := 1,
          n_eval := 0, n_p_eval := 0, has_evaluated_once := true }
        (llama_copy_state_data (fun _ => [0, 0, 0, 0])
          { rng_bytes := [1, 2], logits := [5], logits_capacity := 2,
            embedding := [7], kv_buf := [9, 9], kv_n := 1,
            n_eval := 0, n_p_eval := 0, has_evaluated_once := true })).map
        Prod.snd =
      some (llama_get_state_size
        { rng_bytes := [1, 2], logits := [5], logits_capacity := 2,
          embedding := [7], kv_buf := [9, 9], kv_n := 1,
          n_eval := 0, n_p_eval := 0, has_evaluated_once := true }) :=
  C3_state_size_roundtrip _ _ _ (fun _ => rfl) (by decide) (by norm_num)
    (by norm_num) (by norm_num) (by norm_num) (by norm_num)

end LlamaSpec
